import Mathlib

/-!
# Verification of the Frontend-Demo mock data-access layer

Shallow embedding of the client-side data-access layer of the repository
(`src/lib/mock/mockApi.ts` and the page-level access-resolution code), in
its mock ("FE") mode.  Browser storage (`localStorage` together with the
session-scoped entries of `sessionStorage`) is modelled as an explicit
`Store` record threaded through the operations.  A persisted collection is
modelled at the typed level as `Option (Option V)`:

* `none`            — the key is absent from storage;
* `some none`       — the key holds a payload that fails JSON decoding
                      (`JSON.parse` throws; the code catches the error);
* `some (some v)`   — the key holds a payload that decodes to `v`.

`JSON.stringify` of a well-typed record followed by `JSON.parse` is the
identity on records of these shapes (strings, rationals, arrays, objects
with possibly-absent optional fields), so a write stores `some (some v)`.
JavaScript `number` amounts are modelled as `ℚ`; string-valued enums are
modelled as inductive types.
-/

/-- Org access status: `'approved' | 'pending' | 'revoked'`. -/
inductive OrgStatus | approved | pending | revoked
deriving DecidableEq

/-- Transaction status: `'Pending' | 'Approved' | 'Rejected'`. -/
inductive TStatus | Pending | Approved | Rejected
deriving DecidableEq

/-- Transaction type: `'Purchase' | 'Refund' | 'Adjustment'`. -/
inductive TxType | Purchase | Refund | Adjustment
deriving DecidableEq

/-- Task status: `'Pending' | 'Overdue' | 'Completed'`. -/
inductive TaskStatus | Pending | Overdue | Completed
deriving DecidableEq

/-- Request-log status: `'Pending' | 'Approved' | 'Rejected'`. -/
inductive ReqStatus | Pending | Approved | Rejected
deriving DecidableEq

/-- Request-log priority: `'Low' | 'Medium' | 'High'`. -/
inductive Priority | Low | Medium | High
deriving DecidableEq

/-- Dashboard variant: `'full' | 'partial'`. -/
inductive DashType | full | part
deriving DecidableEq

/-- `BudgetRow` from `mockApi.ts` (`item`, `category`, `allocated`, `spent`). -/
structure BudgetRow where
  item : String
  category : String
  allocated : ℚ
  spent : ℚ
deriving DecidableEq

/-- `Transaction` from `mockApi.ts`.  Optional string fields are `Option`;
`status?` is optional in the TS type. -/
structure Transaction where
  id : String
  clientId : String
  type : TxType
  date : String
  madeBy : String
  category : String
  item : String
  amount : ℚ
  receiptDataUrl : Option String
  receiptMimeType : Option String
  receiptFilename : Option String
  status : Option TStatus
deriving DecidableEq

/-- `Task` from `mockApi.ts` (`TaskFE` here: `Task` is taken by the Lean
core library).  `category?` is the only optional field. -/
structure TaskFE where
  id : String
  clientId : String
  title : String
  category : Option String
  frequency : String
  lastDone : String
  nextDue : String
  status : TaskStatus
  comments : List String
  files : List String
deriving DecidableEq

/-- A partially-shaped persisted task record: the store has no schema
enforcement, so every field may be absent (`Partial<Task>` in the source's
hydration code). -/
structure PTask where
  id : Option String
  clientId : Option String
  title : Option String
  category : Option String
  frequency : Option String
  lastDone : Option String
  nextDue : Option String
  status : Option TaskStatus
  comments : Option (List String)
  files : Option (List String)
deriving DecidableEq

/-- `RequestLogFE` from `mockApi.ts`.  `detail`/`reason` are modelled as
`Option String` because `normalizeOne` receives untyped (`raw: any`)
records in which either may be absent. -/
structure RequestLogFE where
  id : String
  clientId : String
  createdAt : String
  createdBy : String
  title : String
  detail : Option String
  reason : Option String
  status : ReqStatus
  category : Option String
  priority : Option Priority
deriving DecidableEq

/-- `Client` from `mockApi.ts` (fields used by the access-resolution code;
the other optional fields — `accessCode`, `notes`, … — play no role in any
claim and are omitted). -/
structure Client where
  id : String
  name : String
  dob : String
  dashboardType : Option DashType
  orgAccess : Option OrgStatus
deriving DecidableEq

/-- Entry produced by the clients-list page (`part_003`, `loadClients`,
mock branch): `{ id, name, dashboardType, orgAccess }`. -/
structure ClientEntry where
  id : String
  name : String
  dashboardType : Option DashType
  orgAccess : OrgStatus
deriving DecidableEq

/-- Entry produced by the transaction-history page (`part_001`,
`loadClientsWithOrgAccess`): `{ id, name, orgAccess }`. -/
structure AccessEntry where
  id : String
  name : String
  orgAccess : OrgStatus
deriving DecidableEq

/-- `orgStatusByClient` payload: `{ [clientId]: { [orgId]: status } }`. -/
def OrgStatusMap : Type := String → Option (String → Option OrgStatus)

/-- `budgetByClient` payload: `{ [clientId]: BudgetRow[] }`. -/
def BudgetMap : Type := String → Option (List BudgetRow)

/-- The browser storage visible to the data-access layer.  Collection keys
hold `Option (Option V)` (absent / malformed / decoded, see the header
comment); `currentOrgId` holds the raw string; `sessionSeeded` is the
session-scoped `orgSeededThisSession` flag. -/
structure Store where
  orgStatusRaw : Option (Option OrgStatusMap)
  budgetRaw : Option (Option BudgetMap)
  txRaw : Option (Option (List Transaction))
  tasksRaw : Option (Option (List PTask))
  requestsRaw : Option (Option (List RequestLogFE))
  currentOrgId : Option String
  sessionSeeded : Option String

/-- A store with no keys set. -/
def emptyStore : Store := ⟨none, none, none, none, none, none, none⟩

/-- JavaScript string falsiness for an optional string field
(`undefined`/`null`/`''` are falsy). -/
def isFalsyOpt : Option String → Bool
  | none => true
  | some s => s = ""

-- ====================== Clients & org-status store ======================

/-- `FULL_DASH_ID` (Alice). -/
def FULL_DASH_ID : String := "mock1"

/-- `PARTIAL_DASH_ID` (Bob). -/
def PARTIAL_DASH_ID : String := "mock2"

/-- `CATHY_ID` (Cathy). -/
def CATHY_ID : String := "mock-cathy"

/-- The hardcoded mock client list returned by `getClientsFE` in mock
mode. -/
def mockClients : List Client :=
  [ ⟨FULL_DASH_ID, "Mock Alice", "1943-09-19", some .full, some .approved⟩,
    ⟨PARTIAL_DASH_ID, "Mock Bob", "1950-01-02", some .part, some .pending⟩,
    ⟨CATHY_ID, "Mock Cathy", "1962-11-05", some .full, some .revoked⟩ ]

/-- `getCurrentOrgIdFE`: `localStorage.getItem('currentOrgId') || 'org1'`
(`null` and the empty string are both falsy). -/
def getCurrentOrgIdFE (st : Store) : String :=
  match st.currentOrgId with
  | some s => if s = "" then "org1" else s
  | none => "org1"

/-- `readStatusMap`: decode `orgStatusByClient`, returning `{}` when the
key is absent or the payload is malformed (the `try`/`catch` swallows the
`JSON.parse` error). -/
def readStatusMap (st : Store) : OrgStatusMap :=
  match st.orgStatusRaw with
  | some (some m) => m
  | _ => fun _ => none

/-- `writeStatusMap`. -/
def writeStatusMap (m : OrgStatusMap) (st : Store) : Store :=
  { st with orgStatusRaw := some (some m) }

/-- `m[clientId]?.[orgId]` on a decoded status map (an absent inner object
makes the whole optional chain `undefined`). -/
def lookupCO (m : OrgStatusMap) (clientId orgId : String) : Option OrgStatus :=
  ((m clientId).getD (fun _ => none)) orgId

/-- `getOrgStatusForClientFE`: `readStatusMap()[clientId]?.[orgId]`. -/
def getOrgStatusForClientFE (st : Store) (clientId orgId : String) : Option OrgStatus :=
  lookupCO (readStatusMap st) clientId orgId

/-- The `ensure` closure inside `seedOrgStatusDefaultsFE`:
`m[clientId] = m[clientId] || {}; if (!m[clientId][orgId]) m[clientId][orgId] = status`.
Status strings are truthy, so the guard fires exactly when no override is
present. -/
def ensure (clientId : String) (status : OrgStatus) (orgId : String)
    (m : OrgStatusMap) : OrgStatusMap :=
  let inner := (m clientId).getD (fun _ => none)
  let inner' := if inner orgId = none
    then (fun o' => if o' = orgId then some status else inner o')
    else inner
  fun c' => if c' = clientId then some inner' else m c'

/-- `seedOrgStatusDefaultsFE`: seed per-client initial org status only once
per session (guarded by the `orgSeededThisSession` flag), never overwriting
an existing override. -/
def seedOrgStatusDefaultsFE (st : Store) : Store :=
  if st.sessionSeeded = some "1" then st
  else
    let orgId := getCurrentOrgIdFE st
    let m := readStatusMap st
    let m1 := ensure FULL_DASH_ID .approved orgId m
    let m2 := ensure PARTIAL_DASH_ID .pending orgId m1
    let m3 := ensure CATHY_ID .revoked orgId m2
    { writeStatusMap m3 st with sessionSeeded := some "1" }

-- ====================== Access resolution (pages) ======================

/-- The per-client mapping of the clients-list page (`part_003`,
`loadClients`, mock branch): `orgAccess: override ?? ((c.orgAccess) ?? 'approved')`
with `override = getOrgStatusForClientFE(c._id, currentOrgId)`. -/
def mapClientEntry (st : Store) (c : Client) : ClientEntry :=
  let override := getOrgStatusForClientFE st c.id (getCurrentOrgIdFE st)
  { id := c.id, name := c.name, dashboardType := c.dashboardType,
    orgAccess :=
      match override with
      | some s => s
      | none =>
        match c.orgAccess with
        | some d => d
        | none => .approved }

/-- The mock branch of `loadClients` in the clients-list page: map the
mock clients through `mapClientEntry`. -/
def loadClientsMock (st : Store) : List ClientEntry :=
  mockClients.map (mapClientEntry st)

/-- `loadClientsWithOrgAccess` (`part_001`): seed the defaults, then map
each client to `getOrgStatusForClientFE(c._id, orgId) || 'pending'`
(statuses are truthy, so `|| 'pending'` is `Option.getD .pending`). -/
def loadClientsWithOrgAccess (st : Store) : List AccessEntry × Store :=
  let st' := seedOrgStatusDefaultsFE st
  let orgId := getCurrentOrgIdFE st'
  (mockClients.map (fun c =>
      ⟨c.id, c.name, (getOrgStatusForClientFE st' c.id orgId).getD .pending⟩),
   st')

/-- Modelled from the spec (§4.3), for comparison with the code: the
resolution cascade `override`, else the client's static default access
field, else `"approved"`. -/
def specResolveAccess (st : Store) (c : Client) : OrgStatus :=
  match getOrgStatusForClientFE st c.id (getCurrentOrgIdFE st) with
  | some s => s
  | none =>
    match c.orgAccess with
    | some d => d
    | none => .approved

-- ====================== Budget repository ======================

/-- `DEFAULT_BUDGET_BY_CLIENT`: the demo budget seed. -/
def DEFAULT_BUDGET_BY_CLIENT : BudgetMap := fun c =>
  if c = FULL_DASH_ID then some
    [ ⟨"Dental Appointments", "Appointments", 600, 636⟩,
      ⟨"Toothbrush Heads", "Hygiene", 30, 28⟩,
      ⟨"Socks", "Clothing", 176, 36⟩ ]
  else if c = PARTIAL_DASH_ID then some
    [ ⟨"GP Checkup", "Appointments", 400, 300⟩,
      ⟨"Shampoo", "Hygiene", 50, 45⟩,
      ⟨"Jacket", "Clothing", 200, 120⟩ ]
  else if c = CATHY_ID then some
    [ ⟨"Eye Test", "Appointments", 500, 100⟩,
      ⟨"Body Wash", "Hygiene", 40, 15⟩,
      ⟨"Shoes", "Clothing", 300, 280⟩ ]
  else none

/-- `readBudgetMap`: decode `budgetByClient`; when the key is absent or the
payload malformed, seed the default map (writing it back) and return it. -/
def readBudgetMap (st : Store) : BudgetMap × Store :=
  match st.budgetRaw with
  | some (some m) => (m, st)
  | _ => (DEFAULT_BUDGET_BY_CLIENT,
          { st with budgetRaw := some (some DEFAULT_BUDGET_BY_CLIENT) })

/-- `writeBudgetMap`. -/
def writeBudgetMap (m : BudgetMap) (st : Store) : Store :=
  { st with budgetRaw := some (some m) }

/-- The budget rows currently visible for a client: `readBudgetMap()[clientId] ?? []`. -/
def budgetRowsOf (st : Store) (clientId : String) : List BudgetRow :=
  ((readBudgetMap st).1 clientId).getD []

/-- JavaScript `Number(x || 0)` on a numeric amount: `0` is falsy and maps
to `0`, every other rational maps to itself. -/
def numOr0 (q : ℚ) : ℚ := if q = 0 then 0 else q

/-- The row update performed by `applyTransactionToBudgetFE`, written as a
structural recursion equivalent to its `findIndex` / in-place update /
`push`: the first row with `r.category === category && r.item === item`
gets `spent + Number(amount || 0)`; when no row matches, the row
`{ item, category, allocated: 0, spent: Number(amount || 0) }` is appended. -/
def applyToRows (category item : String) (amount : ℚ) : List BudgetRow → List BudgetRow
  | [] => [⟨item, category, 0, numOr0 amount⟩]
  | r :: rs =>
    if r.category = category ∧ r.item = item then
      { r with spent := r.spent + numOr0 amount } :: rs
    else
      r :: applyToRows category item amount rs

/-- `applyTransactionToBudgetFE`. -/
def applyTransactionToBudgetFE (clientId category item : String) (amount : ℚ)
    (st : Store) : Store :=
  let (m, st') := readBudgetMap st
  let rows := (m clientId).getD []
  let rows' := applyToRows category item amount rows
  writeBudgetMap (fun c' => if c' = clientId then some rows' else m c') st'

-- ====================== Transactions repository ======================

/-- `DEMO_TRANSACTIONS`. -/
def DEMO_TRANSACTIONS : List Transaction :=
  [ ⟨"t1", FULL_DASH_ID, .Purchase, "2025-09-20", "Carer John", "Appointments",
      "Dental Appointments", 36, none, none, some "Mock receipt 1.pdf", some .Approved⟩,
    ⟨"t2", FULL_DASH_ID, .Refund, "2025-09-21", "Family Alice", "Hygiene",
      "Toothbrush Heads", -2, none, none, some "Mock receipt 2.pdf", some .Rejected⟩,
    ⟨"t3", FULL_DASH_ID, .Purchase, "2025-09-28", "Carer Mary", "Hygiene",
      "Mouthwash", 8.5, none, none, some "Mock receipt 3.pdf", some .Pending⟩ ]

/-- The `map` inside `backfillDemoReceipts`: demo receipt filenames keyed
by transaction id. -/
def demoReceiptFile (id : String) : Option String :=
  if id = "t1" then some "Mock receipt 1.pdf"
  else if id = "t2" then some "Mock receipt 2.pdf"
  else if id = "t3" then some "Mock receipt 3.pdf"
  else none

/-- The per-transaction condition in `backfillDemoReceipts`:
`!tx.receiptDataUrl && !tx.receiptFilename && map[tx.id]`. -/
def needsBackfill (tx : Transaction) : Bool :=
  isFalsyOpt tx.receiptDataUrl && isFalsyOpt tx.receiptFilename
    && (demoReceiptFile tx.id).isSome

/-- The mutation applied to one transaction by `backfillDemoReceipts`. -/
def backfillOne (tx : Transaction) : Transaction :=
  if needsBackfill tx then
    { tx with receiptFilename := demoReceiptFile tx.id,
              receiptMimeType := some "application/pdf" }
  else tx

/-- `backfillDemoReceipts`: patch missing demo receipt metadata and, when
anything changed, persist the patched list. -/
def backfillDemoReceipts (all : List Transaction) (st : Store) :
    List Transaction × Store :=
  let all' := all.map backfillOne
  if all.any needsBackfill then
    (all', { st with txRaw := some (some all') })
  else
    (all', st)

/-- `readTransactions`: decode `transactions`; on a missing key or a
malformed payload, seed and return `DEMO_TRANSACTIONS`; on success, run the
receipt backfill. -/
def readTransactions (st : Store) : List Transaction × Store :=
  match st.txRaw with
  | some (some l) => backfillDemoReceipts l st
  | _ => (DEMO_TRANSACTIONS, { st with txRaw := some (some DEMO_TRANSACTIONS) })

/-- `writeTransactions`. -/
def writeTransactions (all : List Transaction) (st : Store) : Store :=
  { st with txRaw := some (some all) }

/-- `setTransactionStatusFE` (mock branch): look the transaction up by id
(returning silently when absent), overwrite its status unconditionally,
persist, and — only when the new status is `Approved` — apply the amount to
the budget via `applyTransactionToBudgetFE`. -/
def setTransactionStatusFE (txId : String) (status : TStatus) (st : Store) : Store :=
  let p := readTransactions st
  let all := p.1
  let st1 := p.2
  match all.findIdx? (fun t => t.id = txId) with
  | none => st1
  | some i =>
    match all.get? i with
    | none => st1
    | some prev =>
      let all' := all.set i { prev with status := some status }
      let st2 := writeTransactions all' st1
      if status = .Approved then
        applyTransactionToBudgetFE prev.clientId prev.category prev.item
          (numOr0 prev.amount) st2
      else st2

-- ====================== Tasks repository ======================

/-- `DEMO_TASKS`. -/
def DEMO_TASKS : List TaskFE :=
  [ ⟨"1", FULL_DASH_ID, "Dental Appointment", some "Appointments", "Monthly",
      "2025-09-15", "2025-10-01", .Pending,
      ["Carer note: Arrived on time, patient was calm."], []⟩,
    ⟨"2", FULL_DASH_ID, "Replace Toothbrush Head", some "Hygiene", "Every 3 months",
      "2025-07-13", "2025-10-13", .Pending,
      ["Carer note: Current head slightly worn."], []⟩,
    ⟨"3", PARTIAL_DASH_ID, "Submit Report", some "Administration", "Weekly",
      "2025-09-18", "2025-09-25", .Overdue, [], []⟩ ]

/-- The serialized form of a well-typed task: every present field persists
(`JSON.stringify` drops absent optional fields, which parse back as
absent). -/
def toPTask (t : TaskFE) : PTask :=
  ⟨some t.id, some t.clientId, some t.title, t.category, some t.frequency,
   some t.lastDone, some t.nextDue, some t.status, some t.comments, some t.files⟩

/-- The hydration lambda in `getTasksFE` (`(t, idx)` with 0-based `idx`):
fill each missing field with its type-appropriate default. -/
def hydrate (idx : ℕ) (p : PTask) : TaskFE :=
  { id := p.id.getD (toString (idx + 1)),
    clientId := p.clientId.getD FULL_DASH_ID,
    title := match p.title with
      | some s => s
      | none => "Task " ++ toString (idx + 1),
    category := some (p.category.getD ""),
    frequency := p.frequency.getD "",
    lastDone := p.lastDone.getD (p.nextDue.getD ""),
    nextDue := p.nextDue.getD "",
    status := p.status.getD .Pending,
    comments := p.comments.getD [],
    files := p.files.getD [] }

/-- `parsed.map((t, idx) => ...)`: hydration over the list with a running
0-based index. -/
def hydrateAll (idx : ℕ) : List PTask → List TaskFE
  | [] => []
  | p :: ps => hydrate idx p :: hydrateAll (idx + 1) ps

/-- `getTasksFE` (mock branch): decode `tasks`; a decoded non-empty array
is hydrated and written back; an absent key, malformed payload or empty
array seeds and returns `DEMO_TASKS`. -/
def getTasksFE (st : Store) : List TaskFE × Store :=
  match st.tasksRaw with
  | some (some l) =>
    if l = [] then
      (DEMO_TASKS, { st with tasksRaw := some (some (DEMO_TASKS.map toPTask)) })
    else
      let hyd := hydrateAll 0 l
      (hyd, { st with tasksRaw := some (some (hyd.map toPTask)) })
  | _ => (DEMO_TASKS, { st with tasksRaw := some (some (DEMO_TASKS.map toPTask)) })

/-- `saveTasksFE` (mock branch): persist the whole collection. -/
def saveTasksFE (tasks : List TaskFE) (st : Store) : Store :=
  { st with tasksRaw := some (some (tasks.map toPTask)) }

/-- The hydration defaults applied to an already well-typed task: only the
optional `category` is patched (`p.category ?? ''`); every other field is
present and survives unchanged. -/
def hydrateFull (t : TaskFE) : TaskFE :=
  { t with category := some (t.category.getD "") }

-- ====================== Request-log normalization ======================

/-- JavaScript `\s` (and `String.prototype.trim`) whitespace set. -/
def isWs (c : Char) : Bool :=
  c.toNat = 9 || c.toNat = 10 || c.toNat = 11 || c.toNat = 12 || c.toNat = 13 ||
  c.toNat = 32 || c.toNat = 0xA0 || c.toNat = 0x1680 ||
  (0x2000 ≤ c.toNat && c.toNat ≤ 0x200A) ||
  c.toNat = 0x2028 || c.toNat = 0x2029 || c.toNat = 0x202F ||
  c.toNat = 0x205F || c.toNat = 0x3000 || c.toNat = 0xFEFF

/-- Case-insensitive match of one character against an ASCII letter (the
`/i` flag on an ASCII pattern letter matches exactly its two cases). -/
def ciChar (c lo up : Char) : Bool := c = lo || c = up

/-- The literal `Reason[:：]` part of the marker pattern at the head of the
input, returning the remainder after the colon on success. -/
def matchReasonColon : List Char → Option (List Char)
  | c1 :: c2 :: c3 :: c4 :: c5 :: c6 :: c7 :: rest =>
    if ciChar c1 'r' 'R' && ciChar c2 'e' 'E' && ciChar c3 'a' 'A' &&
       ciChar c4 's' 'S' && ciChar c5 'o' 'O' && ciChar c6 'n' 'N' &&
       (c7 = ':' || c7 = '：') then some rest else none
  | _ => none

/-- A match of the split regex `/\n+\s*Reason[:：]\s*/i` starting exactly at
the head of the input, returning the remainder after the (greedy) trailing
`\s*` on success.  The language of `\n+\s*` is the set of non-empty
whitespace strings starting with `'\n'`, and the following `Reason` starts
with a non-whitespace letter, so the whitespace block of any match extends
exactly to the first non-whitespace character. -/
def matchMarkerAt : List Char → Option (List Char)
  | [] => none
  | c :: rest =>
    if c = '\n' then
      match matchReasonColon ((c :: rest).dropWhile isWs) with
      | some r2 => some (r2.dropWhile isWs)
      | none => none
    else none

/-- The test regex `/Reason[:：]/i` of `normalizeOne`: does `Reason:` (either
colon, any letter case) occur anywhere in the string? -/
def hasReasonColon : List Char → Bool
  | [] => false
  | c :: rest => (matchReasonColon (c :: rest)).isSome || hasReasonColon rest

/-- Does a full marker line (a match of the split regex) occur anywhere? -/
def hasMarkerLine : List Char → Bool
  | [] => false
  | c :: rest => (matchMarkerAt (c :: rest)).isSome || hasMarkerLine rest

/-- Split off everything up to (not including) the leftmost marker match:
returns the prefix before the match and, when a match exists, the
remainder after it. -/
def firstMarkerSplit : List Char → List Char × Option (List Char)
  | [] => ([], none)
  | c :: rest =>
    match matchMarkerAt (c :: rest) with
    | some rem => ([], some rem)
    | none =>
      let p := firstMarkerSplit rest
      (c :: p.1, p.2)

/-- Iterated split at every marker match (fuelled so that the recursion is
structural; each match consumes at least one character, so `length + 1`
fuel always suffices). -/
def splitLoop : ℕ → List Char → List (List Char)
  | 0, l => [l]
  | fuel + 1, l =>
    match firstMarkerSplit l with
    | (seg, none) => [seg]
    | (seg, some rem) => seg :: splitLoop fuel rem

/-- `txt.split(/\n+\s*Reason[:：]\s*/i)`. -/
def splitAtMarkers (l : List Char) : List (List Char) :=
  splitLoop (l.length + 1) l

/-- JavaScript `String.prototype.trim`. -/
def trimWs (l : List Char) : List Char :=
  (((l.dropWhile isWs).reverse).dropWhile isWs).reverse

/-- `txt.replace(/^Details[:：]\s*/i, '')`: strip an optional leading
`Details:` label. -/
def stripDetails (l : List Char) : List Char :=
  match l with
  | c1 :: c2 :: c3 :: c4 :: c5 :: c6 :: c7 :: c8 :: rest =>
    if ciChar c1 'd' 'D' && ciChar c2 'e' 'E' && ciChar c3 't' 'T' &&
       ciChar c4 'a' 'A' && ciChar c5 'i' 'I' && ciChar c6 'l' 'L' &&
       ciChar c7 's' 'S' && (c8 = ':' || c8 = '：') then rest.dropWhile isWs
    else l
  | _ => l

/-- `splitCombined` (`request-log-page/page.tsx`): split the combined text
at the marker; with at least two parts, the first (with an optional
`Details:` label stripped, then trimmed) is the detail and the remaining
parts joined by `'\n'` (then trimmed) are the reason; otherwise the whole
trimmed text is the detail and there is no reason. -/
def splitCombined (txt : List Char) : List Char × Option (List Char) :=
  match splitAtMarkers txt with
  | p0 :: p1 :: ps =>
    (trimWs (stripDetails p0), some (trimWs (List.intercalate ['\n'] (p1 :: ps))))
  | _ => (trimWs txt, none)

/-- `normalizeOne` (`request-log-page/page.tsx`): when the record has no
(truthy) `reason`, its `detail` is a string and that string matches
`/Reason[:：]/i`, replace `detail`/`reason` by the two halves produced by
`splitCombined`; otherwise return the record unchanged. -/
def normalizeOne (raw : RequestLogFE) : RequestLogFE :=
  match raw.detail with
  | some d =>
    if isFalsyOpt raw.reason && hasReasonColon d.toList then
      let p := splitCombined d.toList
      { raw with detail := some p.1.asString, reason := p.2.map List.asString }
    else raw
  | none => raw

-- ====================== Request-log repository ======================

/-- `DEMO_REQUESTS`. -/
def DEMO_REQUESTS : List RequestLogFE :=
  [ ⟨"rq1", FULL_DASH_ID, "2025-09-25T09:20:00Z", "Family Alice",
      "Adjust dental appointment frequency",
      some "Dentist suggested every 2 months.",
      some "Better oral health management.", .Pending, some "Appointments", some .Medium⟩,
    ⟨"rq2", FULL_DASH_ID, "2025-09-27T14:10:00Z", "Carer John",
      "Change toothbrush brand", some "Prefer softer bristles.",
      some "Client comfort and preference.", .Approved, some "Hygiene", some .Low⟩,
    ⟨"rq3", PARTIAL_DASH_ID, "2025-09-29T08:00:00Z", "Bob Smith Jr.",
      "Add weekly walking activity", some "30 minutes at the park.",
      some "Promote physical activity.", .Rejected, some "Activities", some .Low⟩ ]

/-- `readRequestsAll`: decode `requests`; on a missing key or malformed
payload, seed and return `DEMO_REQUESTS`. -/
def readRequestsAll (st : Store) : List RequestLogFE × Store :=
  match st.requestsRaw with
  | some (some l) => (l, st)
  | _ => (DEMO_REQUESTS, { st with requestsRaw := some (some DEMO_REQUESTS) })

/-- Lexicographic (codepoint) string order, on character lists. -/
def strLeB : List Char → List Char → Bool
  | [], _ => true
  | _ :: _, [] => false
  | x :: xs, y :: ys =>
    if x.toNat < y.toNat then true
    else if y.toNat < x.toNat then false
    else strLeB xs ys

/-- The sort order used by `getRequestsByClientFE`'s comparator
`(a, b) => b.createdAt.localeCompare(a.createdAt)`: newest (largest
`createdAt` string) first.  `localeCompare` on these ISO-timestamp strings
agrees with codepoint string comparison. -/
def newestFirst (a b : RequestLogFE) : Prop :=
  strLeB b.createdAt.toList a.createdAt.toList = true

instance : DecidableRel newestFirst := fun a b =>
  inferInstanceAs (Decidable (strLeB b.createdAt.toList a.createdAt.toList = true))

/-- `strLeB` is total. -/
theorem strLeB_total (a b : List Char) : strLeB a b = true ∨ strLeB b a = true := by
  induction a generalizing b with
  | nil => exact Or.inl rfl
  | cons x xs ih =>
    cases b with
    | nil => exact Or.inr rfl
    | cons y ys =>
      by_cases hxy : x.toNat < y.toNat
      · left; simp [strLeB, hxy]
      · by_cases hyx : y.toNat < x.toNat
        · right; simp [strLeB, hyx]
        · rcases ih ys with h | h
          · left; simp [strLeB, hxy, hyx, h]
          · right; simp [strLeB, hxy, hyx, h]

/-- `strLeB` is transitive. -/
theorem strLeB_trans {a b c : List Char} (h1 : strLeB a b = true)
    (h2 : strLeB b c = true) : strLeB a c = true := by
  induction a generalizing b c with
  | nil => rfl
  | cons x xs ih =>
    cases b with
    | nil => simp [strLeB] at h1
    | cons y ys =>
      cases c with
      | nil => simp [strLeB] at h2
      | cons z zs =>
        simp only [strLeB] at h1 h2 ⊢
        split_ifs at h1 h2 ⊢ <;>
          first
            | rfl
            | (exact ih h1 h2)
            | (exfalso; omega)

instance : IsTotal RequestLogFE newestFirst :=
  ⟨fun a b => strLeB_total b.createdAt.toList a.createdAt.toList⟩

instance : IsTrans RequestLogFE newestFirst :=
  ⟨fun _ _ _ h1 h2 => strLeB_trans h2 h1⟩

/-- `getRequestsByClientFE` (mock branch): filter the stored requests by
client id and sort newest-first (`Array.prototype.sort` is a stable sort by
the comparator; modelled by `List.insertionSort`, which is stable). -/
def getRequestsByClientFE (st : Store) (clientId : String) :
    List RequestLogFE × Store :=
  let p := readRequestsAll st
  (((p.1.filter (fun r => r.clientId == clientId)).insertionSort newestFirst), p.2)

-- ====================== Marker-machinery lemmas ======================

theorem length_dropWhile_le (p : Char → Bool) (l : List Char) :
    (l.dropWhile p).length ≤ l.length := by
  induction l with
  | nil => simp
  | cons c rest ih =>
    by_cases h : p c
    · rw [List.dropWhile_cons_of_pos h]; exact Nat.le_succ_of_le ih
    · rw [List.dropWhile_cons_of_neg h]

theorem matchReasonColon_append {v r : List Char} (t : List Char)
    (h : matchReasonColon v = some r) :
    matchReasonColon (v ++ t) = some (r ++ t) := by
  match v with
  | [] => simp [matchReasonColon] at h
  | [c1] => simp [matchReasonColon] at h
  | [c1, c2] => simp [matchReasonColon] at h
  | [c1, c2, c3] => simp [matchReasonColon] at h
  | [c1, c2, c3, c4] => simp [matchReasonColon] at h
  | [c1, c2, c3, c4, c5] => simp [matchReasonColon] at h
  | [c1, c2, c3, c4, c5, c6] => simp [matchReasonColon] at h
  | c1 :: c2 :: c3 :: c4 :: c5 :: c6 :: c7 :: rest =>
    simp only [matchReasonColon] at h ⊢
    split at h
    · cases h; simp_all
    · cases h

theorem matchReasonColon_length {v r : List Char}
    (h : matchReasonColon v = some r) : r.length + 7 = v.length := by
  match v with
  | [] => simp [matchReasonColon] at h
  | [c1] => simp [matchReasonColon] at h
  | [c1, c2] => simp [matchReasonColon] at h
  | [c1, c2, c3] => simp [matchReasonColon] at h
  | [c1, c2, c3, c4] => simp [matchReasonColon] at h
  | [c1, c2, c3, c4, c5] => simp [matchReasonColon] at h
  | [c1, c2, c3, c4, c5, c6] => simp [matchReasonColon] at h
  | c1 :: c2 :: c3 :: c4 :: c5 :: c6 :: c7 :: rest =>
    simp only [matchReasonColon] at h
    split at h
    · cases h; simp
    · cases h

theorem matchReasonColon_ne_nil {v r : List Char}
    (h : matchReasonColon v = some r) : v ≠ [] := by
  intro hv; subst hv; simp [matchReasonColon] at h

theorem dropWhile_append_of_ne_nil {p : Char → Bool} {l : List Char}
    (t : List Char) (h : l.dropWhile p ≠ []) :
    (l ++ t).dropWhile p = l.dropWhile p ++ t := by
  induction l with
  | nil => simp at h
  | cons c rest ih =>
    by_cases hc : p c
    · rw [List.dropWhile_cons_of_pos hc] at h
      rw [List.cons_append, List.dropWhile_cons_of_pos hc,
        List.dropWhile_cons_of_pos hc, ih h]
    · rw [List.cons_append, List.dropWhile_cons_of_neg hc,
        List.dropWhile_cons_of_neg hc, List.cons_append]

theorem matchMarkerAt_append {l r : List Char} (t : List Char)
    (h : matchMarkerAt l = some r) : ∃ r', matchMarkerAt (l ++ t) = some r' := by
  match l with
  | [] => simp [matchMarkerAt] at h
  | c :: rest =>
    simp only [matchMarkerAt] at h
    split at h
    case isTrue hc =>
      subst hc
      rcases hm : matchReasonColon (('\n' :: rest).dropWhile isWs) with _ | r2
      · rw [hm] at h; cases h
      · rw [hm] at h
        have hne : ('\n' :: rest).dropWhile isWs ≠ [] := matchReasonColon_ne_nil hm
        have hd : (('\n' :: rest) ++ t).dropWhile isWs =
            ('\n' :: rest).dropWhile isWs ++ t :=
          dropWhile_append_of_ne_nil t hne
        refine ⟨(r2 ++ t).dropWhile isWs, ?_⟩
        have hd' : List.dropWhile isWs ('\n' :: (rest ++ t)) =
            List.dropWhile isWs ('\n' :: rest) ++ t := by
          rw [← List.cons_append]; exact hd
        simp only [List.cons_append, matchMarkerAt, if_true]
        rw [hd', matchReasonColon_append t hm]
    case isFalse => cases h

theorem matchMarkerAt_none_of_append {l t : List Char}
    (h : matchMarkerAt (l ++ t) = none) : matchMarkerAt l = none := by
  rcases hm : matchMarkerAt l with _ | r
  · rfl
  · rcases matchMarkerAt_append t hm with ⟨r', hr'⟩
    rw [hr'] at h; cases h

theorem matchMarkerAt_length {l r : List Char}
    (h : matchMarkerAt l = some r) : r.length < l.length := by
  match l with
  | [] => simp [matchMarkerAt] at h
  | c :: rest =>
    simp only [matchMarkerAt] at h
    split at h
    case isTrue hc =>
      rcases hm : matchReasonColon ((c :: rest).dropWhile isWs) with _ | r2
      · rw [hm] at h; cases h
      · rw [hm] at h
        cases h
        have h1 : r2.length + 7 = ((c :: rest).dropWhile isWs).length :=
          matchReasonColon_length hm
        have h2 : ((c :: rest).dropWhile isWs).length ≤ (c :: rest).length :=
          length_dropWhile_le isWs (c :: rest)
        have h3 : (r2.dropWhile isWs).length ≤ r2.length :=
          length_dropWhile_le isWs r2
        omega
    case isFalse => cases h

theorem firstMarkerSplit_decomp (l : List Char) :
    ∃ t, l = (firstMarkerSplit l).1 ++ t := by
  induction l with
  | nil => exact ⟨[], rfl⟩
  | cons c rest ih =>
    simp only [firstMarkerSplit]
    rcases hm : matchMarkerAt (c :: rest) with _ | rem
    · rcases ih with ⟨t, ht⟩
      exact ⟨t, by simpa using congrArg (c :: ·) ht⟩
    · exact ⟨c :: rest, rfl⟩

theorem firstMarkerSplit_none_eq {l : List Char}
    (h : (firstMarkerSplit l).2 = none) : (firstMarkerSplit l).1 = l := by
  induction l with
  | nil => rfl
  | cons c rest ih =>
    simp only [firstMarkerSplit] at h ⊢
    rcases hm : matchMarkerAt (c :: rest) with _ | rem
    · simp only [hm] at h ⊢
      rw [ih h]
    · simp [hm] at h

theorem firstMarkerSplit_noMarker (l : List Char) :
    hasMarkerLine (firstMarkerSplit l).1 = false := by
  induction l with
  | nil => rfl
  | cons c rest ih =>
    simp only [firstMarkerSplit]
    rcases hm : matchMarkerAt (c :: rest) with _ | rem
    · simp only [hasMarkerLine]
      rcases firstMarkerSplit_decomp rest with ⟨t, ht⟩
      have hnone : matchMarkerAt (c :: (firstMarkerSplit rest).1) = none := by
        apply matchMarkerAt_none_of_append (t := t)
        rw [List.cons_append, ← ht]; exact hm
      simp [hnone, ih]
    · rfl

theorem firstMarkerSplit_none_noMarker {l : List Char}
    (h : (firstMarkerSplit l).2 = none) : hasMarkerLine l = false := by
  induction l with
  | nil => rfl
  | cons c rest ih =>
    simp only [firstMarkerSplit] at h
    rcases hm : matchMarkerAt (c :: rest) with _ | rem
    · simp only [hm] at h
      simp [hasMarkerLine, hm, ih h]
    · simp [hm] at h

theorem firstMarkerSplit_rem_length {l rem : List Char}
    (h : (firstMarkerSplit l).2 = some rem) : rem.length < l.length := by
  induction l with
  | nil => simp [firstMarkerSplit] at h
  | cons c rest ih =>
    simp only [firstMarkerSplit] at h
    rcases hm : matchMarkerAt (c :: rest) with _ | rem'
    · simp only [hm] at h
      have := ih h
      simp only [List.length_cons]
      omega
    · simp only [hm] at h
      cases h
      exact matchMarkerAt_length hm

theorem splitLoop_ne_nil (fuel : ℕ) (l : List Char) : splitLoop fuel l ≠ [] := by
  cases fuel with
  | zero => simp [splitLoop]
  | succ n =>
    simp only [splitLoop]
    rcases h : firstMarkerSplit l with ⟨seg, _ | rem⟩ <;> simp

theorem hasMarkerLine_append_right {t : List Char} (w : List Char)
    (h : hasMarkerLine t = true) : hasMarkerLine (w ++ t) = true := by
  induction w with
  | nil => exact h
  | cons c rest ih =>
    simp only [List.cons_append, hasMarkerLine]
    simp [ih]

theorem hasMarkerLine_append_left {l : List Char} (t : List Char)
    (h : hasMarkerLine l = true) : hasMarkerLine (l ++ t) = true := by
  induction l with
  | nil => cases h
  | cons c rest ih =>
    simp only [hasMarkerLine] at h
    simp only [List.cons_append, hasMarkerLine]
    rcases Bool.or_eq_true_iff.mp h with h1 | h2
    · rcases hm : matchMarkerAt (c :: rest) with _ | r
      · rw [hm] at h1; cases h1
      · rcases matchMarkerAt_append t hm with ⟨r', hr'⟩
        rw [List.cons_append] at hr'
        simp [hr']
    · simp [ih h2]

theorem hasReasonColon_append_right {v : List Char} (w : List Char)
    (h : hasReasonColon v = true) : hasReasonColon (w ++ v) = true := by
  induction w with
  | nil => exact h
  | cons c rest ih =>
    simp only [List.cons_append, hasReasonColon]
    simp [ih]

theorem hasReasonColon_of_marker {l : List Char}
    (h : hasMarkerLine l = true) : hasReasonColon l = true := by
  induction l with
  | nil => cases h
  | cons c rest ih =>
    simp only [hasMarkerLine] at h
    simp only [hasReasonColon]
    rcases Bool.or_eq_true_iff.mp h with h1 | h2
    · rcases hm : matchMarkerAt (c :: rest) with _ | r
      · rw [hm] at h1; cases h1
      · simp only [matchMarkerAt] at hm
        split at hm
        case isTrue hc =>
          rcases hrc : matchReasonColon ((c :: rest).dropWhile isWs) with _ | r2
          · rw [hrc] at hm; cases hm
          · have hne : hasReasonColon ((c :: rest).dropWhile isWs) = true := by
              rcases hd : (c :: rest).dropWhile isWs with _ | ⟨x, xs⟩
              · rw [hd] at hrc; simp [matchReasonColon] at hrc
              · rw [hd] at hrc
                simp [hasReasonColon, hrc]
            have hsplit : (c :: rest).takeWhile isWs ++ (c :: rest).dropWhile isWs
                = c :: rest := List.takeWhile_append_dropWhile isWs (c :: rest)
            have := hasReasonColon_append_right ((c :: rest).takeWhile isWs) hne
            rw [hsplit] at this
            simp only [hasReasonColon] at this
            exact this
        case isFalse => cases hm
    · simp [ih h2]

theorem noMarker_of_decompL {l v : List Char} (w : List Char) (hl : l = w ++ v)
    (h : hasMarkerLine l = false) : hasMarkerLine v = false := by
  by_contra hv
  rw [hl, hasMarkerLine_append_right w (Bool.of_not_eq_false hv)] at h
  cases h

theorem noMarker_of_decompR {l v : List Char} (t : List Char) (hl : l = v ++ t)
    (h : hasMarkerLine l = false) : hasMarkerLine v = false := by
  by_contra hv
  rw [hl, hasMarkerLine_append_left t (Bool.of_not_eq_false hv)] at h
  cases h

theorem noMarker_stripDetails {l : List Char}
    (h : hasMarkerLine l = false) : hasMarkerLine (stripDetails l) = false := by
  match hl : l with
  | [] => exact h
  | [c1] => exact h
  | [c1, c2] => exact h
  | [c1, c2, c3] => exact h
  | [c1, c2, c3, c4] => exact h
  | [c1, c2, c3, c4, c5] => exact h
  | [c1, c2, c3, c4, c5, c6] => exact h
  | [c1, c2, c3, c4, c5, c6, c7] => exact h
  | c1 :: c2 :: c3 :: c4 :: c5 :: c6 :: c7 :: c8 :: rest =>
    simp only [stripDetails]
    split
    · have hdec : c1 :: c2 :: c3 :: c4 :: c5 :: c6 :: c7 :: c8 :: rest =
          ([c1, c2, c3, c4, c5, c6, c7, c8] ++ rest.takeWhile isWs)
            ++ rest.dropWhile isWs := by
        simp [List.takeWhile_append_dropWhile]
      exact noMarker_of_decompL _ hdec h
    · exact h

theorem noMarker_trimWs {l : List Char}
    (h : hasMarkerLine l = false) : hasMarkerLine (trimWs l) = false := by
  have h1 : hasMarkerLine (l.dropWhile isWs) = false :=
    noMarker_of_decompL (l.takeWhile isWs)
      (List.takeWhile_append_dropWhile isWs l).symm h
  have hdec : l.dropWhile isWs =
      trimWs l ++ (((l.dropWhile isWs).reverse).takeWhile isWs).reverse := by
    have hsplit : ((l.dropWhile isWs).reverse).takeWhile isWs ++
        ((l.dropWhile isWs).reverse).dropWhile isWs = (l.dropWhile isWs).reverse :=
      List.takeWhile_append_dropWhile isWs (l.dropWhile isWs).reverse
    calc l.dropWhile isWs
        = ((l.dropWhile isWs).reverse).reverse := by rw [List.reverse_reverse]
      _ = (((l.dropWhile isWs).reverse).takeWhile isWs ++
            ((l.dropWhile isWs).reverse).dropWhile isWs).reverse := by rw [hsplit]
      _ = trimWs l ++ (((l.dropWhile isWs).reverse).takeWhile isWs).reverse := by
            rw [List.reverse_append]; rfl
  exact noMarker_of_decompR _ hdec h1

theorem splitAtMarkers_head_noMarker {l p : List Char} {ps : List (List Char)}
    (h : splitAtMarkers l = p :: ps) : hasMarkerLine p = false := by
  unfold splitAtMarkers splitLoop at h
  rcases hfs : firstMarkerSplit l with ⟨seg, _ | rem⟩ <;>
    rw [hfs] at h <;> cases h <;>
    simpa [hfs] using firstMarkerSplit_noMarker l

theorem splitAtMarkers_single_noMarker {l p : List Char}
    (h : splitAtMarkers l = [p]) : hasMarkerLine l = false := by
  unfold splitAtMarkers splitLoop at h
  rcases hfs : firstMarkerSplit l with ⟨seg, _ | rem⟩
  · rw [hfs] at h
    exact firstMarkerSplit_none_noMarker (by rw [hfs])
  · rw [hfs] at h
    simp only [List.cons.injEq] at h
    exact absurd h.2 (splitLoop_ne_nil _ _)

-- ====================== Store-level helper lemmas ======================

theorem numOr0_eq (q : ℚ) : numOr0 q = q := by
  unfold numOr0; split <;> simp [*]

theorem readTransactions_budgetRaw (st : Store) :
    (readTransactions st).2.budgetRaw = st.budgetRaw := by
  unfold readTransactions backfillDemoReceipts
  rcases st.txRaw with _ | (_ | l) <;> simp
  split <;> rfl

theorem applyTransactionToBudgetFE_txRaw (c cat it : String) (a : ℚ) (st : Store) :
    (applyTransactionToBudgetFE c cat it a st).txRaw = st.txRaw := by
  unfold applyTransactionToBudgetFE readBudgetMap writeBudgetMap
  rcases st.budgetRaw with _ | (_ | m) <;> rfl

theorem readBudgetMap_of_raw {st st' : Store}
    (h : st.budgetRaw = st'.budgetRaw) :
    (readBudgetMap st).1 = (readBudgetMap st').1 := by
  unfold readBudgetMap
  rw [h]
  rcases st'.budgetRaw with _ | (_ | m) <;> rfl

theorem budgetRowsOf_of_raw {st st' : Store}
    (h : st.budgetRaw = st'.budgetRaw) (c : String) :
    budgetRowsOf st c = budgetRowsOf st' c := by
  unfold budgetRowsOf
  rw [readBudgetMap_of_raw h]

/-- `ensure` never changes an existing override. -/
theorem ensure_preserve {m : OrgStatusMap} {c o : String} {v : OrgStatus}
    (cid : String) (stv : OrgStatus) (org : String)
    (h : lookupCO m c o = some v) :
    lookupCO (ensure cid stv org m) c o = some v := by
  unfold lookupCO at h ⊢
  unfold ensure
  by_cases hc : c = cid
  · subst hc
    rcases hmc : m c with _ | inner0
    · rw [hmc] at h
      simp only [Option.getD_none] at h
      cases h
    · rw [hmc] at h
      simp only [Option.getD_some] at h
      rw [if_pos rfl]
      simp only [Option.getD_some]
      split_ifs with hg
      · show (if o = org then some stv else inner0 o) = some v
        by_cases ho : o = org
        · subst ho
          rw [h] at hg; cases hg
        · rw [if_neg ho]; exact h
      · exact h
  · simp only [if_neg hc]
    exact h

/-- After any run of the seeder the session flag is set. -/
theorem seed_flag (st : Store) :
    (seedOrgStatusDefaultsFE st).sessionSeeded = some "1" := by
  unfold seedOrgStatusDefaultsFE
  split
  · assumption
  · rfl

/-- A store whose session flag says seeding already ran is returned
unchanged by the seeder. -/
theorem seed_of_flag {st : Store} (h : st.sessionSeeded = some "1") :
    seedOrgStatusDefaultsFE st = st := by
  unfold seedOrgStatusDefaultsFE
  rw [if_pos h]

-- ====================== Claim C4 ======================

/-- Store used to witness C4: an override `revoked` for
(`mock1`, `org1`) is already present and no seeding has happened. -/
def c4Store : Store :=
  { emptyStore with
      orgStatusRaw := some (some (fun c =>
        if c = FULL_DASH_ID then
          some (fun o => if o = "org1" then some .revoked else none)
        else none)) }

/-- **C4** — Session seeding writes a default status only for
(client, organisation) pairs that have no existing override: every pair
that already has an override maps to the same status after
`seedOrgStatusDefaultsFE` as before. -/
theorem c4_seed_preserves_overrides (st : Store) (c o : String) (v : OrgStatus)
    (h : getOrgStatusForClientFE st c o = some v) :
    getOrgStatusForClientFE (seedOrgStatusDefaultsFE st) c o = some v := by
  unfold getOrgStatusForClientFE at h ⊢
  unfold seedOrgStatusDefaultsFE
  split
  · exact h
  · exact ensure_preserve _ _ _ (ensure_preserve _ _ _ (ensure_preserve _ _ _ h))

/-- Witness for C4: the pre-existing `revoked` override for Alice survives
seeding (which would otherwise write `approved` for her). -/
theorem c4_witness :
    getOrgStatusForClientFE (seedOrgStatusDefaultsFE c4Store) FULL_DASH_ID "org1"
      = some OrgStatus.revoked :=
  c4_seed_preserves_overrides c4Store FULL_DASH_ID "org1" OrgStatus.revoked (by decide)

-- ====================== Claim C5 ======================

/-- **C5** — Seeding is idempotent within one session: starting from any
store state, running `seedOrgStatusDefaultsFE` twice yields the same store
— in particular the same override map — as running it once, because the
first run sets the per-session `orgSeededThisSession` flag and the second
run no-ops on it. -/
theorem c5_seed_idempotent (st : Store) :
    seedOrgStatusDefaultsFE (seedOrgStatusDefaultsFE st) = seedOrgStatusDefaultsFE st
    ∧ readStatusMap (seedOrgStatusDefaultsFE (seedOrgStatusDefaultsFE st))
        = readStatusMap (seedOrgStatusDefaultsFE st) :=
  ⟨seed_of_flag (seed_flag st), by rw [seed_of_flag (seed_flag st)]⟩

-- ====================== Claim C2 ======================

/-- Store used to refute C2 for the transaction-history page: the session
flag claims seeding already ran, while the override map is empty (this is
the state e.g. after another tab's `setViewerRoleFE` cleared
`orgStatusByClient`, whose removal does not clear this tab's
session-scoped flag). -/
def c2Store : Store :=
  { emptyStore with
      orgStatusRaw := some (some (fun _ => none)),
      sessionSeeded := some "1" }

/-- Counterexample to C2 as stated: with no override present, the
transaction-history page's resolution (`loadClientsWithOrgAccess`)
returns `pending` for every client — for Alice in particular — whereas the
claimed cascade (override, else client default, else `approved`) resolves
Alice to her static default `approved`. -/
theorem c2_counterexample :
    (loadClientsWithOrgAccess c2Store).1 =
      [⟨FULL_DASH_ID, "Mock Alice", .pending⟩,
       ⟨PARTIAL_DASH_ID, "Mock Bob", .pending⟩,
       ⟨CATHY_ID, "Mock Cathy", .pending⟩]
    ∧ mockClients.map (specResolveAccess c2Store) = [.approved, .pending, .revoked]
    ∧ OrgStatus.pending ≠ OrgStatus.approved := by
  refine ⟨by decide, by decide, by decide⟩

/-- **C2 (amended)** — The clients-list page resolves access by the
cascade: explicit override, else the client's static default, else
`approved` (in particular `approved` when neither exists).  The
transaction-history page instead resolves to the override when one is set
and otherwise to `pending`, ignoring the client's static default. -/
theorem c2_resolution_cascade :
    (∀ st c, (mapClientEntry st c).orgAccess = specResolveAccess st c)
    ∧ (∀ st (c : Client),
        getOrgStatusForClientFE st c.id (getCurrentOrgIdFE st) = none →
        c.orgAccess = none →
        (mapClientEntry st c).orgAccess = .approved)
    ∧ (∀ st (c : Client), c ∈ mockClients →
        (⟨c.id, c.name,
           (getOrgStatusForClientFE (seedOrgStatusDefaultsFE st) c.id
             (getCurrentOrgIdFE (seedOrgStatusDefaultsFE st))).getD .pending⟩ :
          AccessEntry) ∈ (loadClientsWithOrgAccess st).1) := by
  refine ⟨fun st c => rfl, fun st c h1 h2 => ?_, fun st c hc => ?_⟩
  · simp [mapClientEntry, h1, h2]
  · exact List.mem_map_of_mem _ hc

/-- Witness for C2 (amended): a client with no override and no default
resolves to `approved` on the clients-list page; Alice appears with her
post-seeding override `approved` in the transaction-history list. -/
theorem c2_witness :
    (mapClientEntry emptyStore ⟨"x", "X", "2000-01-01", none, none⟩).orgAccess
      = OrgStatus.approved
    ∧ (⟨FULL_DASH_ID, "Mock Alice", OrgStatus.approved⟩ : AccessEntry)
        ∈ (loadClientsWithOrgAccess emptyStore).1 := by
  constructor
  · exact c2_resolution_cascade.2.1 emptyStore ⟨"x", "X", "2000-01-01", none, none⟩
      (by decide) rfl
  · have h := c2_resolution_cascade.2.2 emptyStore
      ⟨FULL_DASH_ID, "Mock Alice", "1943-09-19", some .full, some .approved⟩
      (by decide)
    rw [show (getOrgStatusForClientFE (seedOrgStatusDefaultsFE emptyStore) FULL_DASH_ID
        (getCurrentOrgIdFE (seedOrgStatusDefaultsFE emptyStore))).getD .pending
        = OrgStatus.approved from by decide] at h
    exact h

-- ====================== Claim C9 ======================

/-- **C9** — Every mock-mode repository read is total (it is a Lean
function on the whole store state, with all decode failures represented)
and fail-soft: a missing key or a malformed persisted payload resolves to
the caller-side fallback — the empty map for the org-status store, the
demo seeds for transactions, budget, requests and tasks — and no error is
surfaced. -/
theorem c9_reads_fail_soft (st : Store) :
    ((st.orgStatusRaw = none ∨ st.orgStatusRaw = some none) →
      readStatusMap st = fun _ => none)
    ∧ ((st.txRaw = none ∨ st.txRaw = some none) →
      (readTransactions st).1 = DEMO_TRANSACTIONS)
    ∧ ((st.budgetRaw = none ∨ st.budgetRaw = some none) →
      (readBudgetMap st).1 = DEFAULT_BUDGET_BY_CLIENT)
    ∧ ((st.requestsRaw = none ∨ st.requestsRaw = some none) →
      (readRequestsAll st).1 = DEMO_REQUESTS)
    ∧ ((st.tasksRaw = none ∨ st.tasksRaw = some none) →
      (getTasksFE st).1 = DEMO_TASKS) := by
  refine ⟨fun h => ?_, fun h => ?_, fun h => ?_, fun h => ?_, fun h => ?_⟩ <;>
    rcases h with h | h <;>
    simp [readStatusMap, readTransactions, readBudgetMap, readRequestsAll,
      getTasksFE, h]

/-- Witness for C9: on a store with no keys at all, every read returns its
fallback. -/
theorem c9_witness :
    readStatusMap emptyStore = (fun _ => none)
    ∧ (readTransactions emptyStore).1 = DEMO_TRANSACTIONS
    ∧ (readBudgetMap emptyStore).1 = DEFAULT_BUDGET_BY_CLIENT
    ∧ (readRequestsAll emptyStore).1 = DEMO_REQUESTS
    ∧ (getTasksFE emptyStore).1 = DEMO_TASKS :=
  ⟨(c9_reads_fail_soft emptyStore).1 (Or.inl rfl),
   (c9_reads_fail_soft emptyStore).2.1 (Or.inl rfl),
   (c9_reads_fail_soft emptyStore).2.2.1 (Or.inl rfl),
   (c9_reads_fail_soft emptyStore).2.2.2.1 (Or.inl rfl),
   (c9_reads_fail_soft emptyStore).2.2.2.2 (Or.inl rfl)⟩

-- ====================== Claim C6 ======================

/-- Hydrating the serialized form of a well-typed task applies exactly the
hydration defaults (only the optional `category` is patched). -/
theorem hydrate_toPTask (idx : ℕ) (t : TaskFE) :
    hydrate idx (toPTask t) = hydrateFull t := rfl

/-- Hydration of a serialized well-typed collection is `hydrateFull`
applied elementwise, at every starting index. -/
theorem hydrateAll_toPTask (ts : List TaskFE) : ∀ idx,
    hydrateAll idx (ts.map toPTask) = ts.map hydrateFull := by
  induction ts with
  | nil => intro idx; rfl
  | cons t ts ih =>
    intro idx
    simp only [List.map_cons, hydrateAll, hydrate_toPTask, ih]

/-- Counterexample to C6 as stated ("for every list of tasks"): saving the
empty collection and reading it back returns the demo seed set, not the
(hydrated) empty collection. -/
theorem c6_counterexample :
    (getTasksFE (saveTasksFE [] emptyStore)).1 = DEMO_TASKS
    ∧ DEMO_TASKS ≠ ([] : List TaskFE).map hydrateFull := by
  refine ⟨rfl, by decide⟩

/-- **C6 (amended)** — For every *non-empty* list of tasks, saving the
collection and then reading it back in the same context yields the saved
collection with the hydration defaults applied (only the optional
`category` field is defaulted to `""` when absent); the empty collection
instead reads back as the demo seed set. -/
theorem c6_save_read_roundtrip (st : Store) (ts : List TaskFE) (h : ts ≠ []) :
    (getTasksFE (saveTasksFE ts st)).1 = ts.map hydrateFull := by
  unfold saveTasksFE getTasksFE
  simp only
  rw [if_neg (by simpa using h)]
  exact hydrateAll_toPTask ts 0

/-- Witness for C6: a concrete one-task collection (with `category`
absent) round-trips to its hydrated form. -/
theorem c6_witness :
    (getTasksFE (saveTasksFE
        [⟨"9", "mock1", "Walk", none, "Weekly", "2025-01-01", "2025-01-08",
          .Pending, [], []⟩] emptyStore)).1 =
      [⟨"9", "mock1", "Walk", some "", "Weekly", "2025-01-01", "2025-01-08",
        .Pending, [], []⟩] := by
  have h := c6_save_read_roundtrip emptyStore
    [⟨"9", "mock1", "Walk", none, "Weekly", "2025-01-01", "2025-01-08",
      .Pending, [], []⟩] (by decide)
  rw [h]
  decide

-- ====================== Claim C10 ======================

/-- **C10** — For every client id, the mock-mode request-log query returns
exactly the stored requests (as returned by the repository read, which
seeds the demo data when the key is absent or malformed) whose `clientId`
equals the given id — no more and no fewer — ordered newest-first by
string comparison of `createdAt`. -/
theorem c10_requests_filtered_sorted (st : Store) (clientId : String) :
    ((getRequestsByClientFE st clientId).1).Perm
        ((readRequestsAll st).1.filter (fun r => r.clientId == clientId))
    ∧ List.Sorted newestFirst (getRequestsByClientFE st clientId).1
    ∧ (∀ r ∈ (getRequestsByClientFE st clientId).1, r.clientId = clientId) := by
  refine ⟨List.perm_insertionSort _ _, List.sorted_insertionSort _ _, ?_⟩
  intro r hr
  have hmem := (List.perm_insertionSort newestFirst
    ((readRequestsAll st).1.filter (fun r => r.clientId == clientId))).mem_iff.mp hr
  have := (List.mem_filter.mp hmem).2
  exact eq_of_beq this

/-- Witness for C10: on the empty store (which seeds the demo requests),
the query for Alice is sorted, contains exactly her two demo requests, and
each returned record carries her id. -/
theorem c10_witness :
    List.Sorted newestFirst (getRequestsByClientFE emptyStore FULL_DASH_ID).1
    ∧ ((getRequestsByClientFE emptyStore FULL_DASH_ID).1).Perm
        ((readRequestsAll emptyStore).1.filter (fun r => r.clientId == FULL_DASH_ID))
    ∧ (DEMO_REQUESTS.get ⟨1, by decide⟩).clientId = FULL_DASH_ID := by
  refine ⟨(c10_requests_filtered_sorted emptyStore FULL_DASH_ID).2.1,
          (c10_requests_filtered_sorted emptyStore FULL_DASH_ID).1,
          (c10_requests_filtered_sorted emptyStore FULL_DASH_ID).2.2
            (DEMO_REQUESTS.get ⟨1, by decide⟩) (by decide)⟩

-- ====================== Claims C7 / C8: normalization ======================

theorem toList_asString (l : List Char) : (List.asString l).toList = l := rfl

theorem firstMarkerSplit_some_marker {l rem : List Char}
    (h : (firstMarkerSplit l).2 = some rem) : hasMarkerLine l = true := by
  induction l with
  | nil => simp [firstMarkerSplit] at h
  | cons c rest ih =>
    simp only [firstMarkerSplit] at h
    rcases hm : matchMarkerAt (c :: rest) with _ | rem'
    · simp only [hm] at h
      simp [hasMarkerLine, ih h]
    · simp [hasMarkerLine, hm]

theorem splitAtMarkers_two_marker {l p0 p1 : List Char} {ps : List (List Char)}
    (h : splitAtMarkers l = p0 :: p1 :: ps) : hasMarkerLine l = true := by
  unfold splitAtMarkers splitLoop at h
  rcases hfs : firstMarkerSplit l with ⟨seg, _ | rem⟩
  · rw [hfs] at h
    simp at h
  · exact firstMarkerSplit_some_marker (by rw [hfs])

theorem splitCombined_some_reasonColon {l x y : List Char}
    (h : splitCombined l = (x, some y)) : hasReasonColon l = true := by
  unfold splitCombined at h
  rcases hs : splitAtMarkers l with _ | ⟨p0, _ | ⟨p1, ps⟩⟩
  · rw [hs] at h; simp at h
  · rw [hs] at h; simp at h
  · exact hasReasonColon_of_marker (splitAtMarkers_two_marker hs)

theorem splitCombined_fst_noMarker (l : List Char) :
    hasMarkerLine (splitCombined l).1 = false := by
  unfold splitCombined
  rcases hs : splitAtMarkers l with _ | ⟨p0, _ | ⟨p1, ps⟩⟩
  · exact absurd hs (splitLoop_ne_nil _ _)
  · exact noMarker_trimWs (splitAtMarkers_single_noMarker hs)
  · exact noMarker_trimWs (noMarker_stripDetails (splitAtMarkers_head_noMarker hs))

/-- The legacy request record of the spec's scenario: `reason` absent and
`detail = "Details: fix gate\nReason: safety"`. -/
def legacyReq : RequestLogFE :=
  ⟨"rq-legacy", FULL_DASH_ID, "2025-10-01T00:00:00Z", "Family Alice",
   "Adjust gate", some "Details: fix gate\nReason: safety", none,
   .Pending, none, none⟩

/-- **C7** — For every request-log record whose `reason` is absent (or
empty) and whose `detail` splits at the `Reason:` marker line,
normalization replaces `detail` by the text before the marker (with an
optional leading `Details:` label stripped, trimmed) and `reason` by the
text after it; in particular the legacy record with
`detail = "Details: fix gate\nReason: safety"` normalizes to
`detail = "fix gate"`, `reason = "safety"`. -/
theorem c7_normalize_splits :
    (∀ (raw : RequestLogFE) (d : String) (d' r' : List Char),
        isFalsyOpt raw.reason = true →
        raw.detail = some d →
        splitCombined d.toList = (d', some r') →
        normalizeOne raw =
          { raw with detail := some d'.asString, reason := some r'.asString })
    ∧ normalizeOne legacyReq =
        { legacyReq with detail := some "fix gate", reason := some "safety" } := by
  constructor
  · intro raw d d' r' h1 h2 h3
    unfold normalizeOne
    simp only [h2]
    rw [if_pos (by rw [h1, splitCombined_some_reasonColon h3]; rfl)]
    simp only [h3]
    rfl
  · decide

/-- Witness for C7: the theorem applied to the legacy scenario record. -/
theorem c7_witness :
    normalizeOne legacyReq =
      { legacyReq with detail := some "fix gate", reason := some "safety" } :=
  c7_normalize_splits.1 legacyReq "Details: fix gate\nReason: safety"
    "fix gate".toList "safety".toList rfl rfl (by decide)

/-- Does an optional `detail` string contain a marker line? -/
def hasMarkerLineOpt : Option String → Bool
  | none => false
  | some s => hasMarkerLine s.toList

/-- A record that already carries a non-empty `reason` while its `detail`
still embeds a marker line. -/
def c8Req : RequestLogFE :=
  ⟨"rq-z", FULL_DASH_ID, "2025-10-02T00:00:00Z", "Carer John", "Title",
   some "x\nReason: y", some "z", .Pending, none, none⟩

/-- Counterexample to C8 as stated ("for every input record"):
normalization only splits records with no existing `reason`, so a record
that already has a non-empty `reason` keeps the embedded `Reason:` marker
line in its `detail`. -/
theorem c8_counterexample :
    normalizeOne c8Req = c8Req
    ∧ hasMarkerLineOpt (normalizeOne c8Req).detail = true := by
  refine ⟨by decide, by decide⟩

/-- **C8 (amended)** — For every input record whose `reason` field is
absent or empty, the `detail` produced by normalization never contains a
`Reason:` marker line (a newline, optional whitespace, then `Reason` with
either colon, case-insensitively); records that already carry a non-empty
`reason` are returned unchanged and may retain such markers. -/
theorem c8_no_marker_after_normalize (raw : RequestLogFE)
    (h : isFalsyOpt raw.reason = true) :
    hasMarkerLineOpt (normalizeOne raw).detail = false := by
  unfold normalizeOne
  rcases hd : raw.detail with _ | d
  · simp only [hd, hasMarkerLineOpt]
  · simp only [hd]
    by_cases hrc : hasReasonColon d.toList = true
    · rw [if_pos (by rw [h, hrc]; rfl)]
      simp only [hasMarkerLineOpt, toList_asString]
      exact splitCombined_fst_noMarker d.toList
    · rw [if_neg (by rw [h]; simpa using hrc)]
      rw [hd]
      simp only [hasMarkerLineOpt]
      by_contra hml
      exact hrc (hasReasonColon_of_marker (Bool.of_not_eq_false hml))

/-- A marker-line record with no `reason`, used to witness C8. -/
def c8WitnessReq : RequestLogFE :=
  ⟨"rq-w", FULL_DASH_ID, "2025-10-03T00:00:00Z", "Carer John", "Title",
   some "keep this\nReason: because", none, .Pending, none, none⟩

/-- Witness for C8: normalizing a marker-carrying record with no `reason`
leaves no marker line in `detail`. -/
theorem c8_witness :
    hasMarkerLineOpt (normalizeOne c8WitnessReq).detail = false :=
  c8_no_marker_after_normalize c8WitnessReq rfl

-- ====================== Claims C1 / C3: reconciliation ======================

/-- With no row matching `(category, item)` (exact string equality),
`applyToRows` appends the fresh row `{item, category, allocated: 0, spent: amount}`. -/
theorem applyToRows_append_of_no_match {cat it : String} {a : ℚ}
    {rows : List BudgetRow}
    (h : ∀ r ∈ rows, ¬(r.category = cat ∧ r.item = it)) :
    applyToRows cat it a rows = rows ++ [⟨it, cat, 0, a⟩] := by
  induction rows with
  | nil => simp [applyToRows, numOr0_eq]
  | cons r rs ih =>
    have hr := h r (by simp)
    simp only [applyToRows, if_neg hr, List.cons_append]
    rw [ih (fun r' hr' => h r' (by simp [hr']))]

/-- The first row matching `(category, item)` has its `spent` increased by
exactly the amount; every other row is unchanged. -/
theorem applyToRows_update_first {cat it : String} {a : ℚ}
    (pre : List BudgetRow) (r : BudgetRow) (post : List BudgetRow)
    (hpre : ∀ r' ∈ pre, ¬(r'.category = cat ∧ r'.item = it))
    (hcat : r.category = cat) (hit : r.item = it) :
    applyToRows cat it a (pre ++ r :: post) =
      pre ++ { r with spent := r.spent + a } :: post := by
  induction pre with
  | nil => simp [applyToRows, if_pos (And.intro hcat hit), numOr0_eq]
  | cons p ps ih =>
    have hp := hpre p (by simp)
    simp only [List.cons_append, applyToRows, if_neg hp, List.append_eq]
    rw [ih (fun r' h' => hpre r' (by simp [h']))]

/-- Applying a transaction rewrites exactly that client's rows through
`applyToRows`. -/
theorem budgetRowsOf_apply (c cat it : String) (a : ℚ) (st : Store) :
    budgetRowsOf (applyTransactionToBudgetFE c cat it a st) c =
      applyToRows cat it a (budgetRowsOf st c) := by
  unfold budgetRowsOf applyTransactionToBudgetFE readBudgetMap writeBudgetMap
  rcases st.budgetRaw with _ | (_ | m) <;> simp

/-- The demo transaction used to witness C1/C3 (the spec §8 scenario:
`category "Clothing"`, `item "Socks"`, `amount 20`, pending). -/
def c1Tx : Transaction :=
  ⟨"tx-s", FULL_DASH_ID, .Purchase, "2025-10-01", "Carer John", "Clothing",
   "Socks", 20, none, none, some "receipt.pdf", some .Pending⟩

/-- Store for the C1/C3 witnesses: one budget row
`{item: "Socks", category: "Clothing", allocated: 176, spent: 36}` for
Alice and the single pending transaction `c1Tx`. -/
def c1Store : Store :=
  { emptyStore with
      budgetRaw := some (some (fun c =>
        if c = FULL_DASH_ID then some [⟨"Socks", "Clothing", 176, 36⟩] else none)),
      txRaw := some (some [c1Tx]) }

/-- **C1** — When a transaction's status is set to `Approved`, that
client's budget rows are rewritten by `applyToRows` with the transaction's
(category, item, amount); and `applyToRows` updates the first row matching
(category, item) by exact string equality, increasing its `spent` by
exactly the amount, or — when no row matches — appends the new row
`{item, category, allocated: 0, spent: amount}`. -/
theorem c1_approved_applies_to_budget (st : Store) (txId : String)
    (all : List Transaction) (st1 : Store) (i : ℕ) (prev : Transaction)
    (hread : readTransactions st = (all, st1))
    (hfind : all.findIdx? (fun t => t.id = txId) = some i)
    (hget : all.get? i = some prev) :
    budgetRowsOf (setTransactionStatusFE txId .Approved st) prev.clientId
      = applyToRows prev.category prev.item prev.amount
          (budgetRowsOf st prev.clientId)
    ∧ (∀ (rows : List BudgetRow) (cat it : String) (a : ℚ),
        ((∀ r ∈ rows, ¬(r.category = cat ∧ r.item = it)) →
          applyToRows cat it a rows = rows ++ [⟨it, cat, 0, a⟩])
        ∧ (∀ pre r post, rows = pre ++ r :: post →
            (∀ r' ∈ pre, ¬(r'.category = cat ∧ r'.item = it)) →
            r.category = cat → r.item = it →
            applyToRows cat it a rows =
              pre ++ { r with spent := r.spent + a } :: post)) := by
  constructor
  · have hb : st1.budgetRaw = st.budgetRaw := by
      have h2 : (readTransactions st).2 = st1 := by rw [hread]
      rw [← h2]; exact readTransactions_budgetRaw st
    unfold setTransactionStatusFE
    simp only [hread, hfind, hget]
    rw [if_pos trivial]
    rw [budgetRowsOf_apply]
    rw [numOr0_eq]
    congr 1
    exact budgetRowsOf_of_raw (by exact hb) prev.clientId
  · intro rows cat it a
    constructor
    · exact fun h => applyToRows_append_of_no_match h
    · intro pre r post hrows hpre hcat hit
      rw [hrows]
      exact applyToRows_update_first pre r post hpre hcat hit

/-- Witness for C1: approving the pending Socks transaction raises the
matching row's `spent` from 36 to 56 (the spec §8 scenario). -/
theorem c1_witness :
    budgetRowsOf (setTransactionStatusFE "tx-s" TStatus.Approved c1Store)
      FULL_DASH_ID = [⟨"Socks", "Clothing", 176, 56⟩] := by
  have h := (c1_approved_applies_to_budget c1Store "tx-s" [c1Tx] c1Store 0 c1Tx
    rfl rfl rfl).1
  have h2 : applyToRows c1Tx.category c1Tx.item c1Tx.amount
      (budgetRowsOf c1Store c1Tx.clientId) = [⟨"Socks", "Clothing", 176, 56⟩] := by
    show applyToRows "Clothing" "Socks" 20 [⟨"Socks", "Clothing", 176, 36⟩]
      = [⟨"Socks", "Clothing", 176, 56⟩]
    simp only [applyToRows]
    rw [if_pos (And.intro trivial trivial)]
    rw [numOr0_eq]
    norm_num [BudgetRow.mk.injEq]
  exact h.trans h2

/-- **C3** — The status setter accepts every transition between any two of
the three statuses: for any found transaction, whatever its previous
status, the stored list afterwards carries exactly the requested status
(no guard rejects any transition); and a call whose new status is
`Pending` or `Rejected` leaves every budget row of every client unchanged
— only an `Approved` call touches budget state. -/
theorem c3_setter_unguarded_and_framed (st : Store) (txId : String)
    (all : List Transaction) (st1 : Store) (i : ℕ) (prev : Transaction)
    (hread : readTransactions st = (all, st1))
    (hfind : all.findIdx? (fun t => t.id = txId) = some i)
    (hget : all.get? i = some prev) :
    (∀ status : TStatus,
       (setTransactionStatusFE txId status st).txRaw
         = some (some (all.set i { prev with status := some status })))
    ∧ (∀ status : TStatus, status = .Pending ∨ status = .Rejected →
        ∀ c, budgetRowsOf (setTransactionStatusFE txId status st) c
          = budgetRowsOf st c) := by
  have hb : st1.budgetRaw = st.budgetRaw := by
    have h2 : (readTransactions st).2 = st1 := by rw [hread]
    rw [← h2]; exact readTransactions_budgetRaw st
  constructor
  · intro status
    unfold setTransactionStatusFE
    simp only [hread, hfind, hget]
    split
    · rw [applyTransactionToBudgetFE_txRaw]
      rfl
    · rfl
  · intro status hs c
    unfold setTransactionStatusFE
    simp only [hread, hfind, hget]
    rw [if_neg (by rcases hs with h | h <;> (rw [h]; intro hc; cases hc))]
    exact budgetRowsOf_of_raw (by exact hb) c

/-- Witness for C3: rejecting the pending Socks transaction records the
new status and leaves Alice's budget rows untouched. -/
theorem c3_witness :
    (setTransactionStatusFE "tx-s" TStatus.Rejected c1Store).txRaw
      = some (some [{ c1Tx with status := some TStatus.Rejected }])
    ∧ budgetRowsOf (setTransactionStatusFE "tx-s" TStatus.Rejected c1Store)
        FULL_DASH_ID = budgetRowsOf c1Store FULL_DASH_ID := by
  have h := c3_setter_unguarded_and_framed c1Store "tx-s" [c1Tx] c1Store 0 c1Tx
    rfl rfl rfl
  exact ⟨h.1 TStatus.Rejected, h.2 TStatus.Rejected (Or.inr rfl) FULL_DASH_ID⟩
